import Mathlib

/-!
Verification of the command-line contact manager (`main.py`).

The development shallowly embeds the data model and the operations of the
program: the validated field wrappers (`Phone`, `Birthday`), contact records
(`Record`), the name-keyed directory (`AddressBook`, an insertion-ordered
association list mirroring a Python `dict`), and the birthday-per-week report
(`get_birthdays_per_week`).  Dates are embedded as day/month/year triples over
`Nat`; `datetime` subtraction and `strftime("%A")` are embedded through a
proleptic-Gregorian day count (`rataDie`), under the abstraction that "today"
is a calendar date (midnight), which is how the specification presents the
report's input.
-/

namespace AssistantBot

/-! ## Calendar arithmetic (embedding of `datetime` dates) -/

/-- A proleptic Gregorian calendar date, as held by a Python `datetime`
(time-of-day abstracted away). -/
structure PyDate where
  year : Nat
  month : Nat
  day : Nat
  deriving DecidableEq

/-- Gregorian leap-year rule used by `datetime`. -/
def isLeapYear (y : Nat) : Bool :=
  (y % 4 == 0 && y % 100 != 0) || y % 400 == 0

/-- Number of days in a month of a given year (months are 1-based). -/
def daysInMonth (y m : Nat) : Nat :=
  if m = 2 then (if isLeapYear y then 29 else 28)
  else if m = 4 ∨ m = 6 ∨ m = 9 ∨ m = 11 then 30
  else 31

/-- Days in year `y` strictly before month `m` (months are 1-based). -/
def daysBeforeMonth (y : Nat) : Nat → Nat
  | 0 => 0
  | 1 => 0
  | Nat.succ m => daysBeforeMonth y m + daysInMonth y m

/-- Proleptic Gregorian day number: `rataDie ⟨1, 1, 1⟩ = 1`, matching
`datetime.toordinal`.  Differences of `rataDie` values embed `datetime`
subtraction (in whole days), and `rataDie % 7` determines the weekday
(`datetime(1, 1, 1)` is a Monday). -/
def rataDie (d : PyDate) : Nat :=
  365 * (d.year - 1) + (d.year - 1) / 4 - (d.year - 1) / 100 + (d.year - 1) / 400
    + daysBeforeMonth d.year d.month + d.day

/-- English weekday name of a day number, as produced by `strftime("%A")` in
the default locale.  Day number 1 (`0001-01-01`) is a Monday. -/
def weekdayOfRD (n : Nat) : String :=
  match n % 7 with
  | 0 => "Sunday"
  | 1 => "Monday"
  | 2 => "Tuesday"
  | 3 => "Wednesday"
  | 4 => "Thursday"
  | 5 => "Friday"
  | _ => "Saturday"

/-- `get_day_of_week_from_date` (`main.py:128`): `input_date.strftime("%A")`. -/
def get_day_of_week_from_date (input_date : PyDate) : String :=
  weekdayOfRD (rataDie input_date)

/-- `datetime.replace(year=y)`: keeps month and day, revalidates the whole
date, and raises `ValueError` (here: `none`) when the result is not a real
date — e.g. February 29 moved to a non-leap year. -/
def dateReplaceYear (d : PyDate) (y : Nat) : Option PyDate :=
  if 1 ≤ y ∧ y ≤ 9999 ∧ 1 ≤ d.month ∧ d.month ≤ 12 ∧ 1 ≤ d.day ∧ d.day ≤ daysInMonth y d.month
  then some ⟨y, d.month, d.day⟩ else none

/-! ## `strptime(value, "%d.%m.%Y")` (embedding of the birthday parser)

CPython compiles the format to the regex
`(3[01]|[12]\d|0[1-9]|[1-9])\.(1[0-2]|0[1-9]|[1-9])\.(\d\d\d\d)` and requires
a full match, then builds a `datetime` from the captured numbers (which
re-checks that the day exists in the month and that the year is at least 1).
Since every capture group matches only digit characters, a full match is
equivalent to splitting the input at the literal dots into exactly three
digit groups of the right shapes.  The embedding models the ASCII fragment of
the parser (CPython's `\d` would additionally match non-ASCII Unicode decimal
digits). -/

/-- Numeric value of an ASCII digit character. -/
def digitVal (c : Char) : Nat := c.toNat - 48

/-- Value of a digit string, as computed by Python's `int()`. -/
def listVal (cs : List Char) : Nat :=
  cs.foldl (fun a c => a * 10 + digitVal c) 0

/-- Split a character list at every `'.'` (the literal separators of the
format string). -/
def splitDots : List Char → List (List Char)
  | [] => [[]]
  | c :: rest =>
    if c = '.' then [] :: splitDots rest
    else
      match splitDots rest with
      | [] => [[c]]
      | g :: gs => (c :: g) :: gs

/-- The day capture group `3[01]|[12]\d|0[1-9]|[1-9]`: one or two digit
characters whose value is between 1 and 31. -/
def dayPat (cs : List Char) : Bool :=
  cs.all Char.isDigit && decide (cs.length = 1 ∨ cs.length = 2)
    && decide (1 ≤ listVal cs) && decide (listVal cs ≤ 31)

/-- The month capture group `1[0-2]|0[1-9]|[1-9]`: one or two digit
characters whose value is between 1 and 12. -/
def monthPat (cs : List Char) : Bool :=
  cs.all Char.isDigit && decide (cs.length = 1 ∨ cs.length = 2)
    && decide (1 ≤ listVal cs) && decide (listVal cs ≤ 12)

/-- The year capture group `\d\d\d\d`: exactly four digit characters. -/
def yearPat (cs : List Char) : Bool :=
  cs.all Char.isDigit && decide (cs.length = 4)

/-- `datetime.strptime(s, "%d.%m.%Y")`, returning `none` where Python raises
`ValueError`: the regex must fully match, and the captured numbers must form
a real calendar date with year at least `MINYEAR = 1`. -/
def strptimeDMY (cs : List Char) : Option PyDate :=
  match splitDots cs with
  | [ds, ms, ys] =>
    if dayPat ds && monthPat ms && yearPat ys then
      if decide (1 ≤ listVal ys) && decide (listVal ds ≤ daysInMonth (listVal ys) (listVal ms))
      then some ⟨listVal ys, listVal ms, listVal ds⟩ else none
    else none
  | _ => none

/-! ## `str.isdigit` (embedding of the phone validator's character test)

Python's `str.isdigit` is true for the ASCII digits and also for every other
Unicode character with numeric type Digit or Decimal — e.g. the Arabic-Indic
digits U+0660–U+0669 and the superscript digits such as `'²'` (U+00B2).  The
table below records the ASCII digits together with representative non-ASCII
digit characters from those Unicode classes; the theorems that quantify over
arbitrary strings restrict themselves to ASCII inputs, where the table is
exhaustive (no ASCII character outside `'0'`–`'9'` satisfies `isdigit`). -/

/-- Python's single-character `isdigit` test (ASCII digits, Arabic-Indic
digits U+0660–U+0669, and the superscript digits U+00B9, U+00B2, U+00B3). -/
def pyIsDigitChar (c : Char) : Bool :=
  c.isDigit
    || decide (0x660 ≤ c.toNat ∧ c.toNat ≤ 0x669)
    || decide (c.toNat = 0xB9 ∨ c.toNat = 0xB2 ∨ c.toNat = 0xB3)

/-- Python's `str.isdigit`: non-empty, and every character is a digit. -/
def pyStrIsDigit (s : String) : Bool :=
  !s.toList.isEmpty && s.toList.all pyIsDigitChar

/-! ## Errors raised by the program -/

/-- The exceptions an operation of the core can raise: Python's built-in
`ValueError` (with its message) and the program's own exception classes
(`main.py:4-14`). -/
inductive PyErr where
  | valueError (msg : String)
  | contactAlreadyExists
  | contactDoesNotExist
  | noBirthdaySet (msg : String)
  deriving DecidableEq

deriving instance DecidableEq for Except

/-- `Except.isOk` specialised to `PyErr`: did the operation complete without
raising? -/
def exceptOk {α : Type} (e : Except PyErr α) : Bool :=
  match e with
  | .ok _ => true
  | .error _ => false

/-! ## Validated field wrappers (`Field`, `Name`, `Phone`, `Birthday`) -/

/-- `Phone` (`main.py:26-30`): a `Field` holding the raw string. -/
structure Phone where
  value : String
  deriving DecidableEq

/-- `Phone.__init__`: stores the string and raises `ValueError` unless
`value.isdigit()` holds and the length is exactly 10. -/
def Phone.mk? (value : String) : Except PyErr Phone :=
  if !pyStrIsDigit value || value.length != 10 then
    .error (.valueError "Invalid phone number format")
  else .ok ⟨value⟩

/-- `Field.__str__` (`main.py:20-21`): `str(self.value)`, the identity on a
string-valued field. -/
def Phone.render (p : Phone) : String := p.value

/-- `Birthday` (`main.py:32-38`): a `Field` holding the raw string. -/
structure Birthday where
  value : String
  deriving DecidableEq

/-- `Birthday.__init__`: raises `ValueError` unless
`datetime.strptime(value, "%d.%m.%Y")` succeeds; stores the raw string. -/
def Birthday.mk? (value : String) : Except PyErr Birthday :=
  match strptimeDMY value.toList with
  | some _ => .ok ⟨value⟩
  | none => .error (.valueError "Invalid date format for birthday. Please use DD.MM.YYYY.")

/-! ## `Record` (`main.py:40-70`) -/

/-- A contact record: a `Name` field (stored string, never validated), the
ordered list of `Phone`s, and at most one `Birthday`. -/
structure Record where
  name : String
  phones : List Phone
  birthday : Option Birthday
  deriving DecidableEq

/-- `Record.add_phone` (`main.py:51-52`): validate and append. -/
def Record.add_phone (r : Record) (phone : String) : Except PyErr Record :=
  (Phone.mk? phone).map (fun ph => { r with phones := r.phones ++ [ph] })

/-- The equality test `list.remove` applies between a stored element and the
freshly constructed `Phone(phone)`.  Neither `Field` nor `Phone` defines
`__eq__`, so Python falls back to object identity, and the fresh object is a
new object distinct from every element already stored: the comparison is
always false. -/
def phoneEqFresh (_stored _fresh : Phone) : Bool := false

/-- `list.remove(x)` on the phone list with a freshly constructed `x`:
scan for the first element comparing equal to `x`, raise `ValueError` when
none does. -/
def listRemoveFresh (ps : List Phone) (fresh : Phone) : Except PyErr (List Phone) :=
  match ps with
  | [] => .error (.valueError "list.remove(x): x not in list")
  | q :: rest =>
    if phoneEqFresh q fresh then .ok rest
    else (listRemoveFresh rest fresh).map (fun l => q :: l)

/-- `Record.remove_phone` (`main.py:54-55`):
`self.phones.remove(Phone(phone))` — construct (and thereby validate) a fresh
`Phone`, then `list.remove` it from the stored list. -/
def Record.remove_phone (r : Record) (phone : String) : Except PyErr Record :=
  match Phone.mk? phone with
  | .error e => .error e
  | .ok ph => (listRemoveFresh r.phones ph).map (fun ps => { r with phones := ps })

/-- `Record.add_birthday` (`main.py:57-61`): set the birthday when none is
present (validating the string), otherwise raise `ValueError`.  A stored
`Birthday` object is always truthy, so `not self.birthday` means exactly
"no birthday stored". -/
def Record.add_birthday (r : Record) (birthday : String) : Except PyErr Record :=
  match r.birthday with
  | none => (Birthday.mk? birthday).map (fun b => { r with birthday := some b })
  | some _ => .error (.valueError "Contact can have only one birthday.")

/-- `Record.__init__` (`main.py:41-49`): store the name unvalidated, then
`if phone: self.add_phone(phone)` and `if birthday: self.add_birthday(birthday)`
(`None` and the empty string are falsy and are silently skipped). -/
def Record.new (name : String) (phone : Option String) (birthday : Option String) :
    Except PyErr Record :=
  let step1 : Except PyErr Record :=
    match phone with
    | some p => if p = "" then .ok ⟨name, [], none⟩
                else Record.add_phone ⟨name, [], none⟩ p
    | none => .ok ⟨name, [], none⟩
  match step1 with
  | .error e => .error e
  | .ok r1 =>
    match birthday with
    | some b => if b = "" then .ok r1 else Record.add_birthday r1 b
    | none => .ok r1

/-! ## `AddressBook` (`main.py:72-126`)

A Python `dict` preserves insertion order; it is embedded as an association
list with unique keys, new keys appended at the end and assignments to an
existing key keeping its position. -/

/-- The directory: `self.contacts`, a `dict` from name to record. -/
structure AddressBook where
  contacts : List (String × Record)
  deriving DecidableEq

/-- `name in self.contacts` / `self.contacts[name]`: first (only) entry with
the given key. -/
def lookupContact : List (String × Record) → String → Option Record
  | [], _ => none
  | (k, r) :: rest, name => if k = name then some r else lookupContact rest name

/-- `self.contacts[key] = record` on a `dict`: overwrite in place when the
key is present, append otherwise. -/
def assocSet : List (String × Record) → String → Record → List (String × Record)
  | [], key, v => [(key, v)]
  | (k, r) :: rest, key, v =>
    if k = key then (k, v) :: rest else (k, r) :: assocSet rest key v

/-- `AddressBook.add_contact` (`main.py:76-81`): insert iff the name is not
yet a key, else raise `ContactAlreadyExists`. -/
def AddressBook.add_contact (book : AddressBook) (record : Record) :
    Except PyErr (String × AddressBook) :=
  match lookupContact book.contacts record.name with
  | none => .ok ("Contact added.", ⟨book.contacts ++ [(record.name, record)]⟩)
  | some _ => .error .contactAlreadyExists

/-- `AddressBook.change_contact` (`main.py:83-88`): overwrite iff the name is
already a key, else raise `ContactDoesNotExist`. -/
def AddressBook.change_contact (book : AddressBook) (record : Record) :
    Except PyErr (String × AddressBook) :=
  match lookupContact book.contacts record.name with
  | some _ => .ok ("Contact updated.", ⟨assocSet book.contacts record.name record⟩)
  | none => .error .contactDoesNotExist

/-! ## The birthday-per-week report (`main.py:110-126`) -/

/-- `defaultdict(list)` bucket append `this_week_birthdays[day].append(name)`:
an existing key keeps its position and grows its list, a new key is appended
at the end with a one-element list. -/
def addToBucket (bs : List (String × List String)) (day name : String) :
    List (String × List String) :=
  match bs with
  | [] => [(day, [name])]
  | (d, ns) :: rest =>
    if d = day then (d, ns ++ [name]) :: rest
    else (d, ns) :: addToBucket rest day name

/-- Bucket contents for a day (`[]` when the day is absent, as in a
`defaultdict(list)`). -/
def bucketGet : List (String × List String) → String → List String
  | [], _ => []
  | (d, ns) :: rest, day => if d = day then ns else bucketGet rest day

/-- The weekend shift (`main.py:119-122`): computed from the weekday of
`birthday_date` — the parsed stored date, in its original (birth) year. -/
def shiftOf (birthday_date : PyDate) : Nat :=
  if get_day_of_week_from_date birthday_date = "Saturday" then 2
  else if get_day_of_week_from_date birthday_date = "Sunday" then 1
  else 0

/-- The body of the loop of `get_birthdays_per_week` for one record
(`main.py:115-124`): skip records without a birthday; re-parse the stored
string; move the date to `today`'s year (`none` propagates a `ValueError`
crash, e.g. for February 29 moved to a non-leap year); when the signed day
difference lies in `[0, 7)`, append the record's name to the bucket of the
weekday of `today + user_delta` after the weekend shift. -/
def processRecord (today : PyDate) (acc : List (String × List String)) (r : Record) :
    Option (List (String × List String)) :=
  match r.birthday with
  | none => some acc
  | some bd =>
    match strptimeDMY bd.value.toList with
    | none => none
    | some birthday_date =>
      match dateReplaceYear birthday_date today.year with
      | none => none
      | some b2 =>
        if 0 ≤ (rataDie b2 : Int) - (rataDie today : Int)
            ∧ (rataDie b2 : Int) - (rataDie today : Int) < 7 then
          some (addToBucket acc
            (weekdayOfRD (rataDie today
              + (((rataDie b2 : Int) - (rataDie today : Int)).toNat + shiftOf birthday_date)))
            r.name)
        else some acc

/-- The loop of `get_birthdays_per_week` over `self.contacts.values()`,
threading the `defaultdict` and propagating a crash. -/
def birthdaysGo (today : PyDate) :
    List (String × Record) → List (String × List String) →
    Option (List (String × List String))
  | [], acc => some acc
  | (_, r) :: rest, acc =>
    match processRecord today acc r with
    | none => none
    | some acc1 => birthdaysGo today rest acc1

/-- `AddressBook.get_birthdays_per_week` (`main.py:110-126`), with `today`
(the value of `datetime.now()`) abstracted to a calendar date and passed as a
parameter; `none` when the loop raises. -/
def AddressBook.get_birthdays_per_week (book : AddressBook) (today : PyDate) :
    Option (List (String × List String)) :=
  birthdaysGo today book.contacts []

/-- The treatment `get_birthdays_per_week` gives a single record: `none` when
the record contributes no bucket entry on a successful run (no birthday, or
day difference outside `[0, 7)`) and also on the crash paths (which abort the
whole report); `some day` when the record's name is appended to bucket `day`.
This is the readable per-record statement of `main.py:115-124`. -/
def target (today : PyDate) (r : Record) : Option String :=
  match r.birthday with
  | none => none
  | some bd =>
    match strptimeDMY bd.value.toList with
    | none => none
    | some birthday_date =>
      match dateReplaceYear birthday_date today.year with
      | none => none
      | some b2 =>
        if 0 ≤ (rataDie b2 : Int) - (rataDie today : Int)
            ∧ (rataDie b2 : Int) - (rataDie today : Int) < 7 then
          some (weekdayOfRD (rataDie today
            + (((rataDie b2 : Int) - (rataDie today : Int)).toNat + shiftOf birthday_date)))
        else none

/-! ## Reachable directory states -/

/-- Directory states reachable from the empty book by successful `add` and
`change` operations (a failed operation raises and leaves the book as it
was). -/
inductive Reach : AddressBook → Prop
  | empty : Reach ⟨[]⟩
  | add {b : AddressBook} {r : Record} {msg : String} {b2 : AddressBook} :
      Reach b → b.add_contact r = .ok (msg, b2) → Reach b2
  | change {b : AddressBook} {r : Record} {msg : String} {b2 : AddressBook} :
      Reach b → b.change_contact r = .ok (msg, b2) → Reach b2

/-! ## Statement helpers -/

/-- The day labels of a bucket mapping. -/
def bucketKeys (bs : List (String × List String)) : List String := bs.map Prod.fst

/-- Two-character zero-padded decimal rendering (`n ≤ 99`). -/
def twoDigits (n : Nat) : List Char := [Char.ofNat (48 + n / 10), Char.ofNat (48 + n % 10)]

/-- One-character decimal rendering (`n ≤ 9`). -/
def oneDigit (n : Nat) : List Char := [Char.ofNat (48 + n)]

/-- Four-character zero-padded decimal rendering (`n ≤ 9999`). -/
def fourDigits (n : Nat) : List Char :=
  [Char.ofNat (48 + n / 1000), Char.ofNat (48 + n / 100 % 10),
   Char.ofNat (48 + n / 10 % 10), Char.ofNat (48 + n % 10)]

/-- Rejoin dot-separated groups with literal `'.'` separators: the left
inverse of `splitDots`. -/
def joinDots : List (List Char) → List Char
  | [] => []
  | [g] => g
  | g :: gs => g ++ ('.' :: joinDots gs)

/-- The digit groups that denote the 1-or-2-digit numeric value `n`: the
unpadded single digit when `n < 10`, and the two-digit (zero-padded for
`n < 10`) rendering. -/
def groupRenderings (n : Nat) : List (List Char) :=
  if n < 10 then [oneDigit n, twoDigits n] else [twoDigits n]

/-! # Theorems -/

/-! ## Helper lemmas about the phone validator -/

theorem pyIsDigitChar_ascii {c : Char} (h : c.toNat < 128) : pyIsDigitChar c = c.isDigit := by
  rw [Bool.eq_iff_iff]
  simp only [pyIsDigitChar, Bool.or_eq_true, decide_eq_true_eq]
  constructor
  · rintro ((hc | hc) | hc)
    · exact hc
    · omega
    · rcases hc with hc | hc | hc <;> omega
  · intro hc
    exact Or.inl (Or.inl hc)

theorem all_pyIsDigit_of_ascii {s : String} (h : ∀ c ∈ s.toList, c.toNat < 128) :
    s.toList.all pyIsDigitChar = s.toList.all Char.isDigit := by
  rw [Bool.eq_iff_iff]
  simp only [List.all_eq_true]
  constructor
  · intro ha c hc
    rw [← pyIsDigitChar_ascii (h c hc)]
    exact ha c hc
  · intro ha c hc
    rw [pyIsDigitChar_ascii (h c hc)]
    exact ha c hc

theorem phone_mk_ok_iff (s : String) :
    exceptOk (Phone.mk? s) = true ↔ (pyStrIsDigit s = true ∧ s.length = 10) := by
  unfold Phone.mk?
  cases hC : (!pyStrIsDigit s || s.length != 10) with
  | true =>
    rw [if_pos rfl]
    constructor
    · intro h
      simp [exceptOk] at h
    · rintro ⟨h1, h2⟩
      simp only [Bool.or_eq_true, Bool.not_eq_true', bne_iff_ne] at hC
      rcases hC with hC | hC
      · rw [h1] at hC; cases hC
      · exact absurd h2 hC
  | false =>
    rw [if_neg (by simp)]
    simp only [Bool.or_eq_false_iff, bne_eq_false_iff_eq] at hC
    have h1 : pyStrIsDigit s = true := by simpa using hC.1
    simp [exceptOk, h1, hC.2]

theorem phone_mk_ok_eq {p : String} (h : exceptOk (Phone.mk? p) = true) :
    Phone.mk? p = .ok ⟨p⟩ ∧ p ≠ "" := by
  obtain ⟨h1, h2⟩ := (phone_mk_ok_iff p).mp h
  constructor
  · unfold Phone.mk?
    rw [h1, h2]
    rfl
  · rintro rfl
    rw [show pyStrIsDigit "" = false from rfl] at h1
    cases h1

theorem birthday_mk_ok_eq {b : String} (h : exceptOk (Birthday.mk? b) = true) :
    Birthday.mk? b = .ok ⟨b⟩ ∧ b ≠ "" := by
  constructor
  · unfold Birthday.mk? at h ⊢
    cases hC : strptimeDMY b.toList with
    | none => rw [hC] at h; simp [exceptOk] at h
    | some v => rfl
  · rintro rfl
    revert h
    decide

/-! ## C3: phone-number validation -/

/-- **C3 counterexample.** The claim says PhoneNumber construction fails for
every string that is not exactly 10 ASCII digits.  But `"²²²²²²²²²²"` (ten
copies of the superscript-two character, which Python's `str.isdigit`
accepts) is not made of ASCII digits, has length 10, and construction
succeeds. -/
theorem phone_unicode_digit_counterexample :
    exceptOk (Phone.mk? "²²²²²²²²²²") = true
      ∧ "²²²²²²²²²²".length = 10
      ∧ "²²²²²²²²²²".toList.all Char.isDigit = false := by
  decide

/-- **C3 (amended).** For every ASCII string, `Phone` construction succeeds
iff the string consists solely of ASCII digits and has length exactly 10;
non-ASCII Unicode digit characters (accepted by Python's `str.isdigit`) are
additionally accepted by the code, contrary to the claim. -/
theorem phone_ascii_digit_iff (s : String) (h : ∀ c ∈ s.toList, c.toNat < 128) :
    exceptOk (Phone.mk? s) = true
      ↔ (s.toList.all Char.isDigit = true ∧ s.length = 10) := by
  rw [phone_mk_ok_iff]
  unfold pyStrIsDigit
  rw [all_pyIsDigit_of_ascii h]
  constructor
  · rintro ⟨h1, h2⟩
    simp only [Bool.and_eq_true] at h1
    exact ⟨h1.2, h2⟩
  · rintro ⟨h1, h2⟩
    refine ⟨?_, h2⟩
    simp only [Bool.and_eq_true]
    refine ⟨?_, h1⟩
    have hl : s.length = s.toList.length := rfl
    rw [hl] at h2
    cases hl2 : s.toList with
    | nil => rw [hl2] at h2; simp at h2
    | cons a l => simp

/-- Witness for `phone_ascii_digit_iff` at the all-ASCII input
`"0123456789"`. -/
theorem phone_ascii_digit_iff_witness :
    exceptOk (Phone.mk? "0123456789") = true
      ↔ ("0123456789".toList.all Char.isDigit = true ∧ "0123456789".length = 10) :=
  phone_ascii_digit_iff "0123456789" (by decide)

/-! ## C9: phone round-trip -/

/-- **C9.** For every string of exactly 10 ASCII decimal digits, `Phone`
construction succeeds and rendering the constructed value (`Field.__str__`)
gives back exactly the input string. -/
theorem phone_roundtrip (s : String) (h1 : s.toList.all Char.isDigit = true)
    (h2 : s.length = 10) :
    Phone.mk? s = .ok ⟨s⟩ ∧ Phone.render ⟨s⟩ = s := by
  refine ⟨?_, rfl⟩
  have hdig : pyStrIsDigit s = true := by
    unfold pyStrIsDigit
    simp only [Bool.and_eq_true]
    constructor
    · have hl : s.length = s.toList.length := rfl
      rw [hl] at h2
      cases hl2 : s.toList with
      | nil => rw [hl2] at h2; simp at h2
      | cons a l => simp
    · simp only [List.all_eq_true] at h1 ⊢
      intro c hc
      unfold pyIsDigitChar
      rw [h1 c hc]
      simp
  unfold Phone.mk?
  rw [hdig, h2]
  rfl

/-- Witness for `phone_roundtrip` at `"1234567890"`. -/
theorem phone_roundtrip_witness :
    Phone.mk? "1234567890" = .ok ⟨"1234567890"⟩
      ∧ Phone.render ⟨"1234567890"⟩ = "1234567890" :=
  phone_roundtrip "1234567890" (by decide) (by decide)

/-! ## C2: remove_phone -/

theorem listRemoveFresh_error (ps : List Phone) (f : Phone) :
    listRemoveFresh ps f = .error (.valueError "list.remove(x): x not in list") := by
  induction ps with
  | nil => rfl
  | cons q rest ih => simp [listRemoveFresh, phoneEqFresh, ih, Except.map]

/-- **C2 (code bug).** `remove_phone` never succeeds: `Phone` inherits
Python's default identity equality, so `list.remove` never finds the freshly
constructed `Phone(phone)` equal to a stored one and always raises — even
when a stored phone's value equals the input, contrary to the claim. -/
theorem remove_phone_never_succeeds (r : Record) (p : String) :
    exceptOk (Record.remove_phone r p) = false := by
  unfold Record.remove_phone
  cases h : Phone.mk? p with
  | error e => rfl
  | ok ph => simp [listRemoveFresh_error, Except.map, exceptOk]

/-! ## C6: add_contact -/

/-- **C6.** `add_contact` inserts the record (appending the pair keyed by the
record's name and returning "Contact added.") iff no record with that name is
present, and raises `ContactAlreadyExists` — leaving the book unchanged,
since no new state is produced — when one is. -/
theorem add_contact_spec (book : AddressBook) (r : Record) :
    (lookupContact book.contacts r.name = none ↔
      book.add_contact r = .ok ("Contact added.", ⟨book.contacts ++ [(r.name, r)]⟩))
    ∧ (∀ r0, lookupContact book.contacts r.name = some r0 →
      book.add_contact r = .error .contactAlreadyExists) := by
  unfold AddressBook.add_contact
  cases h : lookupContact book.contacts r.name with
  | none =>
    refine ⟨by simp, ?_⟩
    intro r0 h0
    cases h0
  | some v =>
    constructor
    · constructor
      · intro h1; cases h1
      · intro h1; cases h1
    · intro r0 h0
      rfl

/-- Witness for `add_contact_spec`: adding John to the empty book inserts,
and adding him again fails with `ContactAlreadyExists`. -/
theorem add_contact_spec_witness :
    AddressBook.add_contact ⟨[]⟩ ⟨"John", [⟨"1234567890"⟩], none⟩
      = .ok ("Contact added.", ⟨[("John", ⟨"John", [⟨"1234567890"⟩], none⟩)]⟩)
    ∧ AddressBook.add_contact ⟨[("John", ⟨"John", [⟨"1234567890"⟩], none⟩)]⟩
        ⟨"John", [⟨"0987654321"⟩], none⟩
      = .error .contactAlreadyExists :=
  ⟨(add_contact_spec ⟨[]⟩ ⟨"John", [⟨"1234567890"⟩], none⟩).1.mp (by decide),
   (add_contact_spec ⟨[("John", ⟨"John", [⟨"1234567890"⟩], none⟩)]⟩
      ⟨"John", [⟨"0987654321"⟩], none⟩).2 ⟨"John", [⟨"1234567890"⟩], none⟩ (by decide)⟩

/-! ## C7: add_birthday -/

/-- **C7.** When a birthday is already stored, `add_birthday` fails with the
only-one-birthday `ValueError` for every input string, and the stored
birthday is retained; when none is stored, it validates and sets the
birthday. -/
theorem add_birthday_spec (r : Record) (s : String) :
    (∀ bd, r.birthday = some bd →
      Record.add_birthday r s = .error (.valueError "Contact can have only one birthday.")
        ∧ r.birthday = some bd)
    ∧ (r.birthday = none →
      Record.add_birthday r s = (Birthday.mk? s).map (fun b => { r with birthday := some b })) := by
  unfold Record.add_birthday
  cases h : r.birthday with
  | none =>
    constructor
    · intro bd hbd
      cases hbd
    · intro _
      rfl
  | some bd0 =>
    constructor
    · intro bd hbd
      exact ⟨rfl, hbd⟩
    · intro h0
      cases h0

/-- Witness for `add_birthday_spec`: a record holding `01.01.2000` rejects a
second (even malformed) birthday and keeps the original. -/
theorem add_birthday_spec_witness :
    Record.add_birthday ⟨"John", [], some ⟨"01.01.2000"⟩⟩ "not-a-date"
      = .error (.valueError "Contact can have only one birthday.")
    ∧ (⟨"John", [], some ⟨"01.01.2000"⟩⟩ : Record).birthday = some ⟨"01.01.2000"⟩ :=
  (add_birthday_spec ⟨"John", [], some ⟨"01.01.2000"⟩⟩ "not-a-date").1 ⟨"01.01.2000"⟩ rfl

/-! ## C8: record construction -/

/-- **C8 counterexample.** The claim says constructing a record with an empty
name fails; but `Record.__init__` never validates the name, and construction
with the empty name (and a valid phone and birthday) succeeds. -/
theorem record_empty_name_counterexample :
    Record.new "" (some "1234567890") (some "01.01.2000")
      = .ok ⟨"", [⟨"1234567890"⟩], some ⟨"01.01.2000"⟩⟩ := by
  decide

/-- **C8 (amended).** Record construction accepts every name string (no
validation, the empty name included); a given valid phone is validated and
appended and a given valid birthday is validated and set. -/
theorem record_new_spec (name : String) (phone birthday : Option String)
    (hp : ∀ p, phone = some p → exceptOk (Phone.mk? p) = true)
    (hb : ∀ b, birthday = some b → exceptOk (Birthday.mk? b) = true) :
    Record.new name phone birthday
      = .ok ⟨name, (phone.map Phone.mk).toList, birthday.map Birthday.mk⟩ := by
  cases phone with
  | none =>
    cases birthday with
    | none => rfl
    | some b =>
      obtain ⟨hbe, hbne⟩ := birthday_mk_ok_eq (hb b rfl)
      simp [Record.new, hbne, Record.add_birthday, hbe, Except.map]
  | some p =>
    obtain ⟨hpe, hpne⟩ := phone_mk_ok_eq (hp p rfl)
    cases birthday with
    | none =>
      simp [Record.new, hpne, Record.add_phone, hpe, Except.map]
    | some b =>
      obtain ⟨hbe, hbne⟩ := birthday_mk_ok_eq (hb b rfl)
      simp [Record.new, hpne, hbne, Record.add_phone, Record.add_birthday, hpe, hbe, Except.map]

/-- Witness for `record_new_spec` at a non-empty name with a valid phone and
no birthday. -/
theorem record_new_spec_witness :
    Record.new "John" (some "0987654321") none
      = .ok ⟨"John", [⟨"0987654321"⟩], none⟩ :=
  record_new_spec "John" (some "0987654321") none
    (by intro p hp0; cases hp0; decide)
    (by intro b hb0; cases hb0)

/-! ## C10: keys equal record names -/

theorem assocSet_mem {l : List (String × Record)} {key : String} {v : Record}
    {k : String} {r : Record} (h : (k, r) ∈ assocSet l key v) :
    (k, r) ∈ l ∨ (k = key ∧ r = v) := by
  induction l with
  | nil =>
    simp [assocSet] at h
    exact Or.inr h
  | cons p rest ih =>
    obtain ⟨k0, r0⟩ := p
    unfold assocSet at h
    by_cases hk : k0 = key
    · rw [if_pos hk] at h
      rcases List.mem_cons.mp h with h1 | h1
      · obtain ⟨he1, he2⟩ := Prod.mk.injEq .. ▸ h1
        exact Or.inr ⟨he1.trans hk, he2⟩
      · exact Or.inl (List.mem_cons_of_mem _ h1)
    · rw [if_neg hk] at h
      rcases List.mem_cons.mp h with h1 | h1
      · exact Or.inl (h1 ▸ List.mem_cons_self ..)
      · rcases ih h1 with h2 | h2
        · exact Or.inl (List.mem_cons_of_mem _ h2)
        · exact Or.inr h2

/-- **C10.** In every directory state reachable from the empty book by `add`
and `change` operations, the record stored under a key has that key as its
name. -/
theorem directory_key_invariant (b : AddressBook) (hreach : Reach b) :
    ∀ k r, (k, r) ∈ b.contacts → r.name = k := by
  induction hreach with
  | empty =>
    intro k r h
    cases h
  | @add b0 rec msg b2 hb hstep ih =>
    intro k r hmem
    unfold AddressBook.add_contact at hstep
    cases hl : lookupContact b0.contacts rec.name with
    | some v => rw [hl] at hstep; cases hstep
    | none =>
      rw [hl] at hstep
      injection hstep with h1
      injection h1 with hmsg hbook
      subst hbook
      simp only [List.mem_append, List.mem_singleton] at hmem
      rcases hmem with h2 | h2
      · exact ih k r h2
      · obtain ⟨he1, he2⟩ := Prod.mk.injEq .. ▸ h2
        rw [he2, he1]
  | @change b0 rec msg b2 hb hstep ih =>
    intro k r hmem
    unfold AddressBook.change_contact at hstep
    cases hl : lookupContact b0.contacts rec.name with
    | none => rw [hl] at hstep; cases hstep
    | some v =>
      rw [hl] at hstep
      injection hstep with h1
      injection h1 with hmsg hbook
      subst hbook
      rcases assocSet_mem hmem with h2 | ⟨he1, he2⟩
      · exact ih k r h2
      · rw [he2, he1]

/-- Witness for `directory_key_invariant`: a state reached by an `add`
followed by a `change` of the same name satisfies the invariant at its only
entry. -/
theorem directory_key_invariant_witness :
    (⟨"John", [⟨"1112223334"⟩], none⟩ : Record).name = "John" :=
  directory_key_invariant ⟨[("John", ⟨"John", [⟨"1112223334"⟩], none⟩)]⟩
    (@Reach.change ⟨[("John", ⟨"John", [⟨"1234567890"⟩], none⟩)]⟩
      ⟨"John", [⟨"1112223334"⟩], none⟩ "Contact updated."
      ⟨[("John", ⟨"John", [⟨"1112223334"⟩], none⟩)]⟩
      (@Reach.add ⟨[]⟩ ⟨"John", [⟨"1234567890"⟩], none⟩ "Contact added."
        ⟨[("John", ⟨"John", [⟨"1234567890"⟩], none⟩)]⟩ Reach.empty (by decide))
      (by decide))
    "John" ⟨"John", [⟨"1112223334"⟩], none⟩ (by decide)

/-! ## Bucket lemmas for the birthday report -/

theorem bucketGet_addToBucket (bs : List (String × List String)) (day name q : String) :
    bucketGet (addToBucket bs day name) q
      = if q = day then bucketGet bs q ++ [name] else bucketGet bs q := by
  induction bs with
  | nil =>
    by_cases h : q = day
    · subst h
      simp [addToBucket, bucketGet]
    · have h2 : ¬day = q := fun he => h he.symm
      simp [addToBucket, bucketGet, h, h2]
  | cons p rest ih =>
    obtain ⟨d, ns⟩ := p
    by_cases hd : d = day
    · subst hd
      by_cases hq : d = q
      · subst hq
        simp [addToBucket, bucketGet]
      · have hq2 : ¬q = d := fun he => hq he.symm
        simp [addToBucket, bucketGet, hq, hq2]
    · by_cases hq : d = q
      · subst hq
        have hq2 : ¬d = day := hd
        have hq3 : ¬day = d := fun he => hd he.symm
        simp [addToBucket, bucketGet, hq2, hq3]
      · simp [addToBucket, bucketGet, hd, hq, ih]

theorem mem_bucketGet_addToBucket {bs : List (String × List String)} {day name q n : String} :
    n ∈ bucketGet (addToBucket bs day name) q ↔
      n ∈ bucketGet bs q ∨ (q = day ∧ n = name) := by
  rw [bucketGet_addToBucket]
  by_cases h : q = day
  · rw [if_pos h]
    simp [h]
  · rw [if_neg h]
    simp [h]

theorem mem_bucketKeys_addToBucket {bs : List (String × List String)} {day name k : String}
    (h : k ∈ bucketKeys (addToBucket bs day name)) : k ∈ bucketKeys bs ∨ k = day := by
  induction bs with
  | nil =>
    simp [addToBucket, bucketKeys] at h
    exact Or.inr h
  | cons p rest ih =>
    obtain ⟨d, ns⟩ := p
    by_cases hd : d = day
    · rw [show addToBucket ((d, ns) :: rest) day name = (d, ns ++ [name]) :: rest from by
        simp [addToBucket, hd]] at h
      simp only [bucketKeys, List.map_cons, List.mem_cons] at h ⊢
      exact h.imp id id |>.elim (fun h1 => Or.inl (Or.inl h1)) (fun h1 => Or.inl (Or.inr h1))
    · rw [show addToBucket ((d, ns) :: rest) day name = (d, ns) :: addToBucket rest day name from by
        simp [addToBucket, hd]] at h
      simp only [bucketKeys, List.map_cons, List.mem_cons] at h ⊢
      rcases h with h1 | h1
      · exact Or.inl (Or.inl h1)
      · rcases ih h1 with h2 | h2
        · exact Or.inl (Or.inr h2)
        · exact Or.inr h2

theorem bucketKeys_nodup_addToBucket {bs : List (String × List String)} (day name : String)
    (h : (bucketKeys bs).Nodup) : (bucketKeys (addToBucket bs day name)).Nodup := by
  induction bs with
  | nil => simp [addToBucket, bucketKeys]
  | cons p rest ih =>
    obtain ⟨d, ns⟩ := p
    simp only [bucketKeys, List.map_cons, List.nodup_cons] at h
    by_cases hd : d = day
    · rw [show addToBucket ((d, ns) :: rest) day name = (d, ns ++ [name]) :: rest from by
        simp [addToBucket, hd]]
      simp only [bucketKeys, List.map_cons, List.nodup_cons]
      exact h
    · rw [show addToBucket ((d, ns) :: rest) day name = (d, ns) :: addToBucket rest day name from by
        simp [addToBucket, hd]]
      simp only [bucketKeys, List.map_cons, List.nodup_cons]
      refine ⟨?_, ih h.2⟩
      intro hmem
      rcases mem_bucketKeys_addToBucket hmem with h2 | h2
      · exact h.1 h2
      · exact hd h2

theorem bucketGet_of_mem {bs : List (String × List String)} {d : String} {ns : List String}
    (hnd : (bucketKeys bs).Nodup) (h : (d, ns) ∈ bs) : bucketGet bs d = ns := by
  induction bs with
  | nil => cases h
  | cons p rest ih =>
    obtain ⟨d0, ns0⟩ := p
    simp only [bucketKeys, List.map_cons, List.nodup_cons] at hnd
    rcases List.mem_cons.mp h with h1 | h1
    · obtain ⟨he1, he2⟩ := Prod.mk.injEq .. ▸ h1
      unfold bucketGet
      rw [if_pos he1.symm, he2]
    · have hd0 : d0 ≠ d := by
        intro he
        subst he
        exact hnd.1 (List.mem_map_of_mem Prod.fst h1)
      unfold bucketGet
      rw [if_neg hd0]
      exact ih hnd.2 h1

/-! ## Relating the report loop to the per-record treatment -/

theorem processRecord_eq {today : PyDate} {acc : List (String × List String)} {r : Record}
    {acc1 : List (String × List String)} (h : processRecord today acc r = some acc1) :
    (target today r = none ∧ acc1 = acc)
      ∨ ∃ day, target today r = some day ∧ acc1 = addToBucket acc day r.name := by
  unfold processRecord at h
  split at h
  · next hb =>
    simp only [Option.some.injEq] at h
    exact Or.inl ⟨by simp [target, hb], h.symm⟩
  · next bd hb =>
    split at h
    · next hp => cases h
    · next bdate hp =>
      split at h
      · next hrep => cases h
      · next b2 hrep =>
        split at h
        · next hq =>
          simp only [Option.some.injEq] at h
          exact Or.inr ⟨_, by simp only [target, hb, hp, hrep]; rw [if_pos hq], h.symm⟩
        · next hq =>
          simp only [Option.some.injEq] at h
          exact Or.inl ⟨by simp only [target, hb, hp, hrep]; rw [if_neg hq], h.symm⟩

theorem birthdaysGo_keys_nodup {today : PyDate} {l : List (String × Record)}
    {acc m : List (String × List String)} (h : birthdaysGo today l acc = some m)
    (hnd : (bucketKeys acc).Nodup) : (bucketKeys m).Nodup := by
  induction l generalizing acc with
  | nil =>
    unfold birthdaysGo at h
    simp only [Option.some.injEq] at h
    exact h ▸ hnd
  | cons p rest ih =>
    obtain ⟨k0, r0⟩ := p
    unfold birthdaysGo at h
    split at h
    · cases h
    · next acc1 hp =>
      rcases processRecord_eq hp with ⟨_, he⟩ | ⟨day, _, he⟩
      · exact ih h (he ▸ hnd)
      · exact ih h (he ▸ bucketKeys_nodup_addToBucket day r0.name hnd)

theorem birthdaysGo_mem {today : PyDate} {l : List (String × Record)}
    {acc m : List (String × List String)} (h : birthdaysGo today l acc = some m)
    (q n : String) :
    n ∈ bucketGet m q ↔
      (n ∈ bucketGet acc q
        ∨ ∃ p, p ∈ l ∧ target today p.2 = some q ∧ p.2.name = n) := by
  induction l generalizing acc with
  | nil =>
    unfold birthdaysGo at h
    simp only [Option.some.injEq] at h
    subst h
    simp
  | cons p0 rest ih =>
    obtain ⟨k0, r0⟩ := p0
    unfold birthdaysGo at h
    split at h
    · cases h
    · next acc1 hp =>
      have hrec := ih h
      rcases processRecord_eq hp with ⟨ht, he⟩ | ⟨day, ht, he⟩
      · subst he
        rw [hrec]
        constructor
        · rintro (h1 | ⟨p, hp1, hp2, hp3⟩)
          · exact Or.inl h1
          · exact Or.inr ⟨p, List.mem_cons_of_mem _ hp1, hp2, hp3⟩
        · rintro (h1 | ⟨p, hp1, hp2, hp3⟩)
          · exact Or.inl h1
          · rcases List.mem_cons.mp hp1 with h2 | h2
            · rw [h2] at hp2
              rw [ht] at hp2
              cases hp2
            · exact Or.inr ⟨p, h2, hp2, hp3⟩
      · subst he
        rw [hrec]
        constructor
        · rintro (h1 | ⟨p, hp1, hp2, hp3⟩)
          · rcases mem_bucketGet_addToBucket.mp h1 with h2 | ⟨hq2, hn2⟩
            · exact Or.inl h2
            · subst hq2
              exact Or.inr ⟨(k0, r0), List.mem_cons_self .., ht, hn2.symm⟩
          · exact Or.inr ⟨p, List.mem_cons_of_mem _ hp1, hp2, hp3⟩
        · rintro (h1 | ⟨p, hp1, hp2, hp3⟩)
          · exact Or.inl (mem_bucketGet_addToBucket.mpr (Or.inl h1))
          · rcases List.mem_cons.mp hp1 with h2 | h2
            · rw [h2] at hp2 hp3
              rw [ht] at hp2
              injection hp2 with hq2
              exact Or.inl (mem_bucketGet_addToBucket.mpr (Or.inr ⟨hq2.symm, hp3.symm⟩))
            · exact Or.inr ⟨p, h2, hp2, hp3⟩

theorem not_in_report_of_target_none {book : AddressBook} {today : PyDate}
    {m : List (String × List String)} {k : String} {r : Record}
    (hnames : (book.contacts.map (fun p => p.2.name)).Nodup)
    (hmem : (k, r) ∈ book.contacts)
    (hrun : book.get_birthdays_per_week today = some m)
    (ht : target today r = none) :
    ∀ d ns, (d, ns) ∈ m → r.name ∉ ns := by
  intro d ns hdns hn
  have hrun2 : birthdaysGo today book.contacts [] = some m := hrun
  have hnd : (bucketKeys m).Nodup :=
    birthdaysGo_keys_nodup hrun2 (by simp [bucketKeys])
  have hget : bucketGet m d = ns := bucketGet_of_mem hnd hdns
  have hmm := (birthdaysGo_mem hrun2 d r.name).mp (hget ▸ hn)
  rcases hmm with h1 | ⟨p, hp1, hp2, hp3⟩
  · simp [bucketGet] at h1
  · have hpe : p = (k, r) :=
      List.inj_on_of_nodup_map hnames hp1 hmem hp3
    rw [hpe] at hp2
    rw [ht] at hp2
    cases hp2

/-! ## C1: bucket assignment of the report -/

/-- **C1 counterexample.** Today is Wednesday 2024-01-03 and Ann's birthday
(06.01, stored with birth year 2000) falls exactly 3 days later on Saturday
2024-01-06.  The claim requires Ann under Monday's (today+5) bucket; but the
code computes the weekend shift from the weekday of the stored date in its
original year (06.01.2000, a Thursday), so no shift happens and the report
puts Ann under Saturday — there is no Monday bucket at all. -/
theorem birthdays_weekday_shift_counterexample :
    get_day_of_week_from_date ⟨2024, 1, 3⟩ = "Wednesday"
      ∧ get_day_of_week_from_date ⟨2024, 1, 6⟩ = "Saturday"
      ∧ (rataDie ⟨2024, 1, 6⟩ : Int) - (rataDie ⟨2024, 1, 3⟩ : Int) = 3
      ∧ AddressBook.get_birthdays_per_week
          ⟨[("Ann", ⟨"Ann", [], some ⟨"06.01.2000"⟩⟩)]⟩ ⟨2024, 1, 3⟩
        = some [("Saturday", ["Ann"])] := by
  decide

/-- **C1 (amended).** On a successful run of the report, a stored record
(under distinct record names) is treated exactly as `target` describes: when
its birthday's year-`today` occurrence gives a day delta in `[0, 7)`, its
name is placed in the bucket of the weekday of `today + delta'`, where
`delta'` adds 2 (resp. 1) when the *stored birth date itself* — not its
current-year occurrence — falls on a Saturday (resp. Sunday); otherwise the
name appears in no bucket. -/
theorem birthdays_bucket_assignment (book : AddressBook) (today : PyDate)
    (m : List (String × List String)) (k : String) (r : Record)
    (hnames : (book.contacts.map (fun p => p.2.name)).Nodup)
    (hmem : (k, r) ∈ book.contacts)
    (hrun : book.get_birthdays_per_week today = some m) :
    (∀ day, target today r = some day → r.name ∈ bucketGet m day)
      ∧ (target today r = none → ∀ d ns, (d, ns) ∈ m → r.name ∉ ns) := by
  constructor
  · intro day ht
    have hrun2 : birthdaysGo today book.contacts [] = some m := hrun
    exact (birthdaysGo_mem hrun2 day r.name).mpr (Or.inr ⟨(k, r), hmem, ht, rfl⟩)
  · intro ht
    exact not_in_report_of_target_none hnames hmem hrun ht

/-- Witness for `birthdays_bucket_assignment`: Ann, born Saturday 06.01.1996,
seen from Wednesday 2024-01-03 (delta 3, shift +2), lands in Monday's
bucket. -/
theorem birthdays_bucket_assignment_witness :
    target ⟨2024, 1, 3⟩ ⟨"Ann", [], some ⟨"06.01.1996"⟩⟩ = some "Monday"
      ∧ "Ann" ∈ bucketGet [("Monday", ["Ann"])] "Monday" :=
  ⟨by decide,
   (birthdays_bucket_assignment ⟨[("Ann", ⟨"Ann", [], some ⟨"06.01.1996"⟩⟩)]⟩ ⟨2024, 1, 3⟩
      [("Monday", ["Ann"])] "Ann" ⟨"Ann", [], some ⟨"06.01.1996"⟩⟩
      (by decide) (by decide) (by decide)).1 "Monday" (by decide)⟩

/-! ## C5: records outside the window are not reported -/

/-- **C5.** On a successful run of the report (with distinct record names),
a record whose birthday moved to `today`'s year gives a signed day delta
outside `[0, 7)` — e.g. `-1` or `7` — appears in no bucket; the window is
tested before the weekend shift. -/
theorem outside_window_not_reported (book : AddressBook) (today : PyDate)
    (m : List (String × List String)) (k : String) (r : Record) (bd : Birthday)
    (bdate b2 : PyDate)
    (hnames : (book.contacts.map (fun p => p.2.name)).Nodup)
    (hmem : (k, r) ∈ book.contacts)
    (hrun : book.get_birthdays_per_week today = some m)
    (hbd : r.birthday = some bd)
    (hparse : strptimeDMY bd.value.toList = some bdate)
    (hrep : dateReplaceYear bdate today.year = some b2)
    (hout : (rataDie b2 : Int) - (rataDie today : Int) < 0
      ∨ 7 ≤ (rataDie b2 : Int) - (rataDie today : Int)) :
    ∀ d ns, (d, ns) ∈ m → r.name ∉ ns := by
  have ht : target today r = none := by
    simp only [target, hbd, hparse, hrep]
    rw [if_neg]
    rcases hout with h1 | h1
    · intro hc
      omega
    · intro hc
      omega
  exact not_in_report_of_target_none hnames hmem hrun ht

/-- Witness for `outside_window_not_reported`: from Wednesday 2024-01-03,
Ann's birthday 10.01 gives delta 7 and she is excluded, while Bob (delta 2)
is reported; Ann's name is in none of the produced buckets. -/
theorem outside_window_not_reported_witness :
    AddressBook.get_birthdays_per_week
        ⟨[("Ann", ⟨"Ann", [], some ⟨"10.01.1990"⟩⟩),
          ("Bob", ⟨"Bob", [], some ⟨"05.01.1990"⟩⟩)]⟩ ⟨2024, 1, 3⟩
      = some [("Friday", ["Bob"])]
    ∧ "Ann" ∉ ["Bob"] :=
  ⟨by decide,
   outside_window_not_reported
     ⟨[("Ann", ⟨"Ann", [], some ⟨"10.01.1990"⟩⟩),
       ("Bob", ⟨"Bob", [], some ⟨"05.01.1990"⟩⟩)]⟩ ⟨2024, 1, 3⟩
     [("Friday", ["Bob"])] "Ann" ⟨"Ann", [], some ⟨"10.01.1990"⟩⟩ ⟨"10.01.1990"⟩
     ⟨1990, 1, 10⟩ ⟨2024, 1, 10⟩
     (by decide) (by decide) (by decide) (by decide) (by decide) (by decide)
     (by decide) "Friday" ["Bob"] (by decide)⟩

/-! ## C4: birthday format -/

theorem splitDots_no_dot {a : List Char} (h : '.' ∉ a) : splitDots a = [a] := by
  induction a with
  | nil => rfl
  | cons c rest ih =>
    have hc : ¬c = '.' := fun he => h (he ▸ List.mem_cons_self ..)
    have hrest : '.' ∉ rest := fun hm => h (List.mem_cons_of_mem _ hm)
    simp [splitDots, hc, ih hrest]

theorem splitDots_append {a r : List Char} (h : '.' ∉ a) :
    splitDots (a ++ ('.' :: r)) = a :: splitDots r := by
  induction a with
  | nil => simp [splitDots]
  | cons c rest ih =>
    have hc : ¬c = '.' := fun he => h (he ▸ List.mem_cons_self ..)
    have hrest : '.' ∉ rest := fun hm => h (List.mem_cons_of_mem _ hm)
    simp [splitDots, hc, ih hrest]

theorem digit_char_spec {k : Nat} (hk : k ≤ 9) :
    (Char.ofNat (48 + k)).isDigit = true ∧ (Char.ofNat (48 + k)).toNat = 48 + k
      ∧ Char.ofNat (48 + k) ≠ '.' := by
  interval_cases k <;> refine ⟨by decide, by decide, by decide⟩

theorem dot_not_mem_oneDigit {n : Nat} (hn : n ≤ 9) : '.' ∉ oneDigit n := by
  have h := digit_char_spec hn
  simp [oneDigit]
  exact fun he => h.2.2 he.symm

theorem dot_not_mem_twoDigits {n : Nat} (hn : n ≤ 99) : '.' ∉ twoDigits n := by
  have ha := digit_char_spec (k := n / 10) (by omega)
  have hb := digit_char_spec (k := n % 10) (by omega)
  simp [twoDigits]
  exact ⟨fun he => ha.2.2 he.symm, fun he => hb.2.2 he.symm⟩

theorem dot_not_mem_fourDigits {n : Nat} (hn : n ≤ 9999) : '.' ∉ fourDigits n := by
  have ha := digit_char_spec (k := n / 1000) (by omega)
  have hb := digit_char_spec (k := n / 100 % 10) (by omega)
  have hc := digit_char_spec (k := n / 10 % 10) (by omega)
  have hd := digit_char_spec (k := n % 10) (by omega)
  simp [fourDigits]
  exact ⟨fun he => ha.2.2 he.symm, fun he => hb.2.2 he.symm,
    fun he => hc.2.2 he.symm, fun he => hd.2.2 he.symm⟩

theorem listVal_oneDigit {n : Nat} (hn : n ≤ 9) : listVal (oneDigit n) = n := by
  have h := digit_char_spec hn
  simp [listVal, oneDigit, digitVal, h.2.1]

theorem listVal_twoDigits {n : Nat} (hn : n ≤ 99) : listVal (twoDigits n) = n := by
  have ha := digit_char_spec (k := n / 10) (by omega)
  have hb := digit_char_spec (k := n % 10) (by omega)
  simp [listVal, twoDigits, digitVal, ha.2.1, hb.2.1]
  omega

theorem listVal_fourDigits {n : Nat} (hn : n ≤ 9999) : listVal (fourDigits n) = n := by
  have ha := digit_char_spec (k := n / 1000) (by omega)
  have hb := digit_char_spec (k := n / 100 % 10) (by omega)
  have hc := digit_char_spec (k := n / 10 % 10) (by omega)
  have hd := digit_char_spec (k := n % 10) (by omega)
  simp [listVal, fourDigits, digitVal, ha.2.1, hb.2.1, hc.2.1, hd.2.1]
  omega

theorem dayPat_oneDigit {d : Nat} (h1 : 1 ≤ d) (h2 : d ≤ 9) : dayPat (oneDigit d) = true := by
  have h := digit_char_spec h2
  simp [dayPat, oneDigit, listVal, digitVal, h.1, h.2.1]
  omega

theorem dayPat_twoDigits {d : Nat} (h1 : 1 ≤ d) (h2 : d ≤ 31) : dayPat (twoDigits d) = true := by
  have ha := digit_char_spec (k := d / 10) (by omega)
  have hb := digit_char_spec (k := d % 10) (by omega)
  simp [dayPat, twoDigits, listVal, digitVal, ha.1, hb.1, ha.2.1, hb.2.1]
  omega

theorem monthPat_oneDigit {m : Nat} (h1 : 1 ≤ m) (h2 : m ≤ 9) :
    monthPat (oneDigit m) = true := by
  have h := digit_char_spec h2
  simp [monthPat, oneDigit, listVal, digitVal, h.1, h.2.1]
  omega

theorem monthPat_twoDigits {m : Nat} (h1 : 1 ≤ m) (h2 : m ≤ 12) :
    monthPat (twoDigits m) = true := by
  have ha := digit_char_spec (k := m / 10) (by omega)
  have hb := digit_char_spec (k := m % 10) (by omega)
  simp [monthPat, twoDigits, listVal, digitVal, ha.1, hb.1, ha.2.1, hb.2.1]
  omega

theorem yearPat_fourDigits {y : Nat} (hy : y ≤ 9999) : yearPat (fourDigits y) = true := by
  have ha := digit_char_spec (k := y / 1000) (by omega)
  have hb := digit_char_spec (k := y / 100 % 10) (by omega)
  have hc := digit_char_spec (k := y / 10 % 10) (by omega)
  have hd := digit_char_spec (k := y % 10) (by omega)
  simp [yearPat, fourDigits, ha.1, hb.1, hc.1, hd.1]

theorem strptimeDMY_parts {ds ms ys : List Char} (hds : '.' ∉ ds) (hms : '.' ∉ ms)
    (hys : '.' ∉ ys) (hday : dayPat ds = true) (hmonth : monthPat ms = true)
    (hyear : yearPat ys = true) :
    strptimeDMY (ds ++ ('.' :: (ms ++ ('.' :: ys))))
      = if 1 ≤ listVal ys ∧ listVal ds ≤ daysInMonth (listVal ys) (listVal ms)
        then some ⟨listVal ys, listVal ms, listVal ds⟩ else none := by
  have h1 : splitDots (ds ++ ('.' :: (ms ++ ('.' :: ys)))) = [ds, ms, ys] := by
    rw [splitDots_append hds, splitDots_append hms, splitDots_no_dot hys]
  simp only [strptimeDMY, h1, hday, hmonth, hyear, Bool.and_self, if_pos]
  by_cases hc : 1 ≤ listVal ys ∧ listVal ds ≤ daysInMonth (listVal ys) (listVal ms)
  · rw [if_pos hc]
    have hd1 : decide (1 ≤ listVal ys) = true := decide_eq_true hc.1
    have hd2 : decide (listVal ds ≤ daysInMonth (listVal ys) (listVal ms)) = true :=
      decide_eq_true hc.2
    rw [hd1, hd2]
    rfl
  · rw [if_neg hc]
    rcases Decidable.not_and_iff_or_not.mp hc with h2 | h2
    · rw [decide_eq_false h2]
      rfl
    · rw [decide_eq_false h2]
      rw [Bool.and_false]
      rfl

theorem birthday_ok_iff_strptime (s : String) :
    exceptOk (Birthday.mk? s) = true ↔ (strptimeDMY s.toList).isSome = true := by
  unfold Birthday.mk?
  cases h : strptimeDMY s.toList with
  | none => simp [exceptOk]
  | some v => simp [exceptOk]

/-- **C4 counterexample.** The claim says construction succeeds only for the
exact zero-padded `DD.MM.YYYY` pattern (which always has length 10); but the
`strptime` regex also accepts unpadded day and month, so `"1.1.2020"`
(length 8) is accepted. -/
theorem birthday_unpadded_counterexample :
    exceptOk (Birthday.mk? "1.1.2020") = true ∧ "1.1.2020".length ≠ 10 := by
  decide

theorem splitDots_ne_nil (cs : List Char) : splitDots cs ≠ [] := by
  induction cs with
  | nil => simp [splitDots]
  | cons c rest ih =>
    by_cases hc : c = '.'
    · simp [splitDots, hc]
    · simp only [splitDots, if_neg hc]
      cases h : splitDots rest with
      | nil => simp
      | cons g gs => simp

theorem joinDots_cons_of_ne_nil {l : List (List Char)} (g : List Char) (h : l ≠ []) :
    joinDots (g :: l) = g ++ ('.' :: joinDots l) := by
  cases l with
  | nil => exact absurd rfl h
  | cons g2 gs => rfl

theorem splitDots_join (cs : List Char) :
    joinDots (splitDots cs) = cs ∧ ∀ g ∈ splitDots cs, '.' ∉ g := by
  induction cs with
  | nil =>
    refine ⟨rfl, ?_⟩
    intro g hg
    simp [splitDots] at hg
    subst hg
    simp
  | cons c rest ih =>
    by_cases hc : c = '.'
    · subst hc
      have hsplit : splitDots ('.' :: rest) = [] :: splitDots rest := by simp [splitDots]
      rw [hsplit]
      constructor
      · rw [joinDots_cons_of_ne_nil [] (splitDots_ne_nil rest), ih.1]
        rfl
      · intro g hg
        rcases List.mem_cons.mp hg with h1 | h1
        · subst h1; simp
        · exact ih.2 g h1
    · obtain ⟨g, gs, hgs⟩ := List.exists_cons_of_ne_nil (splitDots_ne_nil rest)
      have hsplit : splitDots (c :: rest) = (c :: g) :: gs := by
        simp [splitDots, hc, hgs]
      rw [hsplit]
      rw [hgs] at ih
      constructor
      · cases gs with
        | nil =>
          have hjg : joinDots [g] = g := rfl
          rw [hjg] at ih
          show c :: g = c :: rest
          rw [ih.1]
        | cons g2 gs2 =>
          rw [joinDots_cons_of_ne_nil (c :: g) (by simp)]
          have h2 := ih.1
          rw [joinDots_cons_of_ne_nil g (by simp)] at h2
          rw [← h2]
          rfl
      · intro g0 hg0
        rcases List.mem_cons.mp hg0 with h1 | h1
        · subst h1
          intro hmem
          rcases List.mem_cons.mp hmem with h2 | h2
          · exact hc h2.symm
          · exact ih.2 g (List.mem_cons_self ..) h2
        · exact ih.2 g0 (List.mem_cons_of_mem _ h1)

theorem digit_char_toNat {c : Char} (h : c.isDigit = true) :
    48 ≤ c.toNat ∧ c.toNat ≤ 57 := by
  simp [Char.isDigit] at h
  exact h

theorem listVal_singleton (c : Char) : listVal [c] = c.toNat - 48 := by
  simp [listVal, digitVal]

theorem listVal_pair (c1 c2 : Char) :
    listVal [c1, c2] = (c1.toNat - 48) * 10 + (c2.toNat - 48) := by
  simp [listVal, digitVal]

theorem listVal_quad (c1 c2 c3 c4 : Char) :
    listVal [c1, c2, c3, c4]
      = ((c1.toNat - 48) * 10 + (c2.toNat - 48)) * 100
        + (c3.toNat - 48) * 10 + (c4.toNat - 48) := by
  simp [listVal, digitVal]
  omega

theorem oneDigit_eq {c : Char} (h : c.isDigit = true) :
    oneDigit (listVal [c]) = [c] ∧ listVal [c] ≤ 9 := by
  obtain ⟨h1, h2⟩ := digit_char_toNat h
  rw [listVal_singleton]
  constructor
  · show [Char.ofNat (48 + (c.toNat - 48))] = [c]
    rw [show 48 + (c.toNat - 48) = c.toNat by omega, Char.ofNat_toNat]
  · omega

theorem twoDigits_eq {c1 c2 : Char} (h1 : c1.isDigit = true) (h2 : c2.isDigit = true) :
    twoDigits (listVal [c1, c2]) = [c1, c2] ∧ listVal [c1, c2] ≤ 99 := by
  obtain ⟨ha1, ha2⟩ := digit_char_toNat h1
  obtain ⟨hb1, hb2⟩ := digit_char_toNat h2
  rw [listVal_pair]
  constructor
  · unfold twoDigits
    rw [show ((c1.toNat - 48) * 10 + (c2.toNat - 48)) / 10 = c1.toNat - 48 by omega,
      show ((c1.toNat - 48) * 10 + (c2.toNat - 48)) % 10 = c2.toNat - 48 by omega,
      show 48 + (c1.toNat - 48) = c1.toNat by omega,
      show 48 + (c2.toNat - 48) = c2.toNat by omega,
      Char.ofNat_toNat, Char.ofNat_toNat]
  · omega

theorem fourDigits_eq {c1 c2 c3 c4 : Char} (h1 : c1.isDigit = true) (h2 : c2.isDigit = true)
    (h3 : c3.isDigit = true) (h4 : c4.isDigit = true) :
    fourDigits (listVal [c1, c2, c3, c4]) = [c1, c2, c3, c4]
      ∧ listVal [c1, c2, c3, c4] ≤ 9999 := by
  obtain ⟨ha1, ha2⟩ := digit_char_toNat h1
  obtain ⟨hb1, hb2⟩ := digit_char_toNat h2
  obtain ⟨hc1, hc2⟩ := digit_char_toNat h3
  obtain ⟨hd1, hd2⟩ := digit_char_toNat h4
  rw [listVal_quad]
  constructor
  · unfold fourDigits
    rw [show (((c1.toNat - 48) * 10 + (c2.toNat - 48)) * 100
        + (c3.toNat - 48) * 10 + (c4.toNat - 48)) / 1000 = c1.toNat - 48 by omega,
      show (((c1.toNat - 48) * 10 + (c2.toNat - 48)) * 100
        + (c3.toNat - 48) * 10 + (c4.toNat - 48)) / 100 % 10 = c2.toNat - 48 by omega,
      show (((c1.toNat - 48) * 10 + (c2.toNat - 48)) * 100
        + (c3.toNat - 48) * 10 + (c4.toNat - 48)) / 10 % 10 = c3.toNat - 48 by omega,
      show (((c1.toNat - 48) * 10 + (c2.toNat - 48)) * 100
        + (c3.toNat - 48) * 10 + (c4.toNat - 48)) % 10 = c4.toNat - 48 by omega,
      show 48 + (c1.toNat - 48) = c1.toNat by omega,
      show 48 + (c2.toNat - 48) = c2.toNat by omega,
      show 48 + (c3.toNat - 48) = c3.toNat by omega,
      show 48 + (c4.toNat - 48) = c4.toNat by omega,
      Char.ofNat_toNat, Char.ofNat_toNat, Char.ofNat_toNat, Char.ofNat_toNat]
  · omega

theorem length_four_chars {l : List Char} (h : l.length = 4) :
    ∃ a b c d, l = [a, b, c, d] := by
  cases l with
  | nil => simp at h
  | cons a t1 =>
    cases t1 with
    | nil => simp at h
    | cons b t2 =>
      cases t2 with
      | nil => simp at h
      | cons c t3 =>
        cases t3 with
        | nil => simp at h
        | cons d t4 =>
          cases t4 with
          | nil => exact ⟨a, b, c, d, rfl⟩
          | cons e t5 =>
            simp only [List.length_cons] at h
            omega

theorem daysInMonth_le (y m : Nat) : daysInMonth y m ≤ 31 := by
  unfold daysInMonth
  split
  · split <;> omega
  · split <;> omega

theorem dayPat_renderings {ds : List Char} (h : dayPat ds = true) :
    ds ∈ groupRenderings (listVal ds) ∧ 1 ≤ listVal ds ∧ listVal ds ≤ 31 := by
  simp only [dayPat, Bool.and_eq_true, decide_eq_true_eq] at h
  obtain ⟨⟨⟨hdig, hlen⟩, hv1⟩, hv2⟩ := h
  refine ⟨?_, hv1, hv2⟩
  rcases hlen with h1 | h2
  · obtain ⟨c, rfl⟩ := List.length_eq_one.mp h1
    have hc : c.isDigit = true := by simpa using hdig
    obtain ⟨he, hle⟩ := oneDigit_eq hc
    rw [groupRenderings, if_pos (show listVal [c] < 10 by omega)]
    simp [he]
  · obtain ⟨c1, c2, rfl⟩ := List.length_eq_two.mp h2
    have hc : c1.isDigit = true ∧ c2.isDigit = true := by simpa using hdig
    obtain ⟨he, hle⟩ := twoDigits_eq hc.1 hc.2
    unfold groupRenderings
    by_cases hlt : listVal [c1, c2] < 10
    · rw [if_pos hlt]
      simp [he]
    · rw [if_neg hlt]
      simp [he]

theorem monthPat_renderings {ms : List Char} (h : monthPat ms = true) :
    ms ∈ groupRenderings (listVal ms) ∧ 1 ≤ listVal ms ∧ listVal ms ≤ 12 := by
  simp only [monthPat, Bool.and_eq_true, decide_eq_true_eq] at h
  obtain ⟨⟨⟨hdig, hlen⟩, hv1⟩, hv2⟩ := h
  refine ⟨?_, hv1, hv2⟩
  rcases hlen with h1 | h2
  · obtain ⟨c, rfl⟩ := List.length_eq_one.mp h1
    have hc : c.isDigit = true := by simpa using hdig
    obtain ⟨he, hle⟩ := oneDigit_eq hc
    rw [groupRenderings, if_pos (show listVal [c] < 10 by omega)]
    simp [he]
  · obtain ⟨c1, c2, rfl⟩ := List.length_eq_two.mp h2
    have hc : c1.isDigit = true ∧ c2.isDigit = true := by simpa using hdig
    obtain ⟨he, hle⟩ := twoDigits_eq hc.1 hc.2
    unfold groupRenderings
    by_cases hlt : listVal [c1, c2] < 10
    · rw [if_pos hlt]
      simp [he]
    · rw [if_neg hlt]
      simp [he]

theorem yearPat_fourDigits_eq {ys : List Char} (h : yearPat ys = true) :
    fourDigits (listVal ys) = ys ∧ listVal ys ≤ 9999 := by
  simp only [yearPat, Bool.and_eq_true, decide_eq_true_eq] at h
  obtain ⟨hdig, hlen⟩ := h
  obtain ⟨c1, c2, c3, c4, rfl⟩ := length_four_chars hlen
  have hc : c1.isDigit = true ∧ c2.isDigit = true ∧ c3.isDigit = true ∧ c4.isDigit = true := by
    simpa using hdig
  exact fourDigits_eq hc.1 hc.2.1 hc.2.2.1 hc.2.2.2

/-- **C4 (amended).** For every ASCII string (the fragment on which the
embedded parser is exact), birthday construction succeeds **iff** the string
is `dayGroup.monthGroup.yearGroup` where `dayGroup` renders a day `d ≥ 1`
with one or two digits (leading zero optional), `monthGroup` likewise
renders a month `1 ≤ m ≤ 12`, `yearGroup` is the exactly-four-digit
rendering of a year `1 ≤ y ≤ 9999`, and `d` does not exceed the number of
days of month `m` in year `y`.  So `31.02.2020` and month 13 still fail, but
zero-padding of day and month is optional per component (contrary to the
claim's exact zero-padded `DD.MM.YYYY`). -/
theorem birthday_format_iff (s : String) (_hascii : ∀ c ∈ s.toList, c.toNat < 128) :
    exceptOk (Birthday.mk? s) = true ↔
      ∃ d m y : Nat, 1 ≤ d ∧ 1 ≤ m ∧ m ≤ 12 ∧ 1 ≤ y ∧ y ≤ 9999 ∧ d ≤ daysInMonth y m
        ∧ ∃ ds ∈ groupRenderings d, ∃ ms ∈ groupRenderings m,
          s.toList = ds ++ ('.' :: (ms ++ ('.' :: fourDigits y))) := by
  rw [birthday_ok_iff_strptime]
  constructor
  · intro h
    unfold strptimeDMY at h
    split at h
    next ds ms ys heq =>
      split at h
      next hpat =>
        split at h
        next hcond =>
          simp only [Bool.and_eq_true, decide_eq_true_eq] at hpat hcond
          obtain ⟨⟨hday, hmonth⟩, hyear⟩ := hpat
          obtain ⟨hy1, hdm⟩ := hcond
          have hj := splitDots_join s.toList
          rw [heq] at hj
          have hs : s.toList = ds ++ ('.' :: (ms ++ ('.' :: ys))) := hj.1.symm
          obtain ⟨hdmem, hd1, _⟩ := dayPat_renderings hday
          obtain ⟨hmmem, hm1, hm2⟩ := monthPat_renderings hmonth
          obtain ⟨hyeq, hy2⟩ := yearPat_fourDigits_eq hyear
          refine ⟨listVal ds, listVal ms, listVal ys, hd1, hm1, hm2, hy1, hy2, hdm,
            ds, hdmem, ms, hmmem, ?_⟩
          rw [hyeq]
          exact hs
        next => simp at h
      next => simp at h
    next => simp at h
  · rintro ⟨d, m, y, hd1, hm1, hm2, hy1, hy2, hdm, ds, hds, ms, hms, hs⟩
    have hd31 : d ≤ 31 := le_trans hdm (daysInMonth_le y m)
    have hday : '.' ∉ ds ∧ dayPat ds = true ∧ listVal ds = d := by
      unfold groupRenderings at hds
      by_cases hlt : d < 10
      · rw [if_pos hlt] at hds
        rcases List.mem_cons.mp hds with h1 | h1
        · subst h1
          exact ⟨dot_not_mem_oneDigit (by omega), dayPat_oneDigit hd1 (by omega),
            listVal_oneDigit (by omega)⟩
        · have h2 : ds = twoDigits d := by simpa using h1
          subst h2
          exact ⟨dot_not_mem_twoDigits (by omega), dayPat_twoDigits hd1 hd31,
            listVal_twoDigits (by omega)⟩
      · rw [if_neg hlt] at hds
        have h2 : ds = twoDigits d := by simpa using hds
        subst h2
        exact ⟨dot_not_mem_twoDigits (by omega), dayPat_twoDigits hd1 hd31,
          listVal_twoDigits (by omega)⟩
    have hmonth : '.' ∉ ms ∧ monthPat ms = true ∧ listVal ms = m := by
      unfold groupRenderings at hms
      by_cases hlt : m < 10
      · rw [if_pos hlt] at hms
        rcases List.mem_cons.mp hms with h1 | h1
        · subst h1
          exact ⟨dot_not_mem_oneDigit (by omega), monthPat_oneDigit hm1 (by omega),
            listVal_oneDigit (by omega)⟩
        · have h2 : ms = twoDigits m := by simpa using h1
          subst h2
          exact ⟨dot_not_mem_twoDigits (by omega), monthPat_twoDigits hm1 hm2,
            listVal_twoDigits (by omega)⟩
      · rw [if_neg hlt] at hms
        have h2 : ms = twoDigits m := by simpa using hms
        subst h2
        exact ⟨dot_not_mem_twoDigits (by omega), monthPat_twoDigits hm1 hm2,
          listVal_twoDigits (by omega)⟩
    rw [hs]
    rw [strptimeDMY_parts hday.1 hmonth.1 (dot_not_mem_fourDigits hy2)
      hday.2.1 hmonth.2.1 (yearPat_fourDigits hy2)]
    rw [hday.2.2, hmonth.2.2, listVal_fourDigits hy2]
    rw [if_pos ⟨hy1, hdm⟩]
    rfl

/-- Witness for `birthday_format_iff` at the mixed-padding input
`"03.1.2020"` (zero-padded day, unpadded month): accepted because
3 ≤ 31 days of January 2020. -/
theorem birthday_format_iff_witness :
    exceptOk (Birthday.mk? "03.1.2020") = true :=
  (birthday_format_iff "03.1.2020" (by decide)).mpr
    ⟨3, 1, 2020, by decide, by decide, by decide, by decide, by decide, by decide,
      twoDigits 3, by decide, oneDigit 1, by decide, by decide⟩

end AssistantBot
